import Mathlib

/-!
Verification of the STALCRAFT market-analysis script (src/main.py).

The script fetches a JSON document of auction listings, groups listing
prices by a quality attribute, computes per-quality statistics and buy
recommendations, prints a market summary, and lists the five most recent
listings.  This file gives a shallow embedding of that aggregation pass and
proves the specified properties about it.

Modelling conventions:
* A listing's `additional` mapping is represented by the two facts the code
  reads from it: `additional.get('qlt')` (an optional integer) and
  `'bonus_properties' in additional` (a boolean).  An absent `additional`
  behaves exactly like an empty one in the code (`item.get('additional', {})`),
  so no separate case is needed.
* Prices are rationals; `statistics.mean`, `min`, `max` are exact on them.
* Python's `f"{x:,.0f}"` display rounding is round-half-to-even on the value;
  the thousands separator is presentation only and is not modelled.
* Timestamps are the raw ISO-8601 strings; Python compares them as strings
  in `sorted(..., key=lambda x: x['time'])`, and Lean's `String` order is the
  same code-point lexicographic order.
-/

/-- One market listing, as read by `analyze_prices`: its price, its time
string, `additional.get('qlt')`, and whether `'bonus_properties'` is a key
of `additional`. -/
structure Listing where
  price : ℚ
  time : String
  qlt : Option ℤ
  hasBonus : Bool
deriving DecidableEq

/-- The decoded top-level JSON document: it may or may not contain a
`prices` field holding the listing sequence.  Other fields are never read
by the program. -/
structure AuctionDoc where
  prices : Option (List Listing)
deriving DecidableEq

/-- The failure kinds of a run: HTTP-level failure (`requests` exceptions,
`raise_for_status`), a JSON decoding failure inside `response.json()`, and
a missing-key failure (Python `KeyError`) when subscripting the document. -/
inductive RunError where
  | fetchFailure : RunError
  | parseFailure : RunError
  | keyFailure : RunError
deriving DecidableEq

/-- Embeds `get_quality_name` (lines 41-50): the fixed quality table with
default "Unknown". -/
def getQualityName (qlt : ℤ) : String :=
  if qlt = 0 then "Common"
  else if qlt = 1 then "Uncommon"
  else if qlt = 2 then "Special"
  else if qlt = 3 then "Rare"
  else if qlt = 4 then "Legendary"
  else if qlt = 5 then "Exclusive"
  else "Unknown"

/-- Embeds the `quality_colors` table (lines 75-82) together with the
`.get(qlt, Fore.WHITE)` default. -/
def qualityColors (qlt : ℤ) : String :=
  if qlt = 0 then "WHITE"
  else if qlt = 1 then "GREEN"
  else if qlt = 2 then "BLUE"
  else if qlt = 3 then "MAGENTA"
  else if qlt = 4 then "YELLOW"
  else if qlt = 5 then "RED"
  else "WHITE"

/-- Round half to even, the rounding used by Python's `format(x, ',.0f')`
in `format_price` (lines 38-39). -/
def rndHalfEven (x : ℚ) : ℤ :=
  if x - ⌊x⌋ < 1 / 2 then ⌊x⌋
  else if 1 / 2 < x - ⌊x⌋ then ⌊x⌋ + 1
  else if ⌊x⌋ % 2 = 0 then ⌊x⌋ else ⌊x⌋ + 1

/-- The quality key the grouping loop (lines 59-68) assigns to a listing:
`none` if the listing carries `bonus_properties` (skipped before `qlt` is
read) or has no `qlt`; otherwise its quality level. -/
def listingKey (x : Listing) : Option ℤ :=
  if x.hasBonus then none else x.qlt

/-- The price sequence accumulated for quality level `q` by the grouping
loop (lines 59-68): prices of listings whose key is `q`, in input order. -/
def bucketPrices (q : ℤ) : List Listing → List ℚ
  | [] => []
  | x :: xs =>
      if listingKey x = some q then x.price :: bucketPrices q xs
      else bucketPrices q xs

/-- The `skipped_count` accumulator (lines 57, 62-64): listings carrying
`bonus_properties`. -/
def skippedCount : List Listing → ℕ
  | [] => 0
  | x :: xs => (if x.hasBonus then 1 else 0) + skippedCount xs

/-- Listings the loop neither skips for a bonus nor buckets: no
`bonus_properties` and no `qlt`.  They are counted only in the total. -/
def unbucketedCount : List Listing → ℕ
  | [] => 0
  | x :: xs =>
      (if x.hasBonus = false ∧ x.qlt = none then 1 else 0) + unbucketedCount xs

/-- Python `min` over a nonempty price list (line 91); junk value on `[]`,
which the code never evaluates (`if not prices: continue`, line 86). -/
def listMin : List ℚ → ℚ
  | [] => 0
  | [p] => p
  | p :: q :: ps => min p (listMin (q :: ps))

/-- Python `max` over a nonempty price list (line 92); junk value on `[]`. -/
def listMax : List ℚ → ℚ
  | [] => 0
  | [p] => p
  | p :: q :: ps => max p (listMax (q :: ps))

/-- `statistics.mean` (line 90): arithmetic mean of the price list. -/
def listMean (ps : List ℚ) : ℚ := ps.sum / (ps.length : ℚ)

/-- The per-quality statistics block printed for one bucket (lines 84-101):
name, mean, min, max, count, and the two buy recommendations, whose printed
values are `format_price(avg * 0.9)` and `format_price(min * 1.1)`. -/
structure QualityStats where
  qlt : ℤ
  name : String
  avg : ℚ
  minP : ℚ
  maxP : ℚ
  count : ℕ
  standard : ℤ
  bargain : ℤ
deriving DecidableEq

/-- The statistics computed from one bucket's price list; `none` when the
list is empty (the `if not prices: continue` guard, lines 86-87). -/
def statsOfPrices (q : ℤ) : List ℚ → Option QualityStats
  | [] => none
  | p :: ps =>
      some { qlt := q
             name := getQualityName q
             avg := listMean (p :: ps)
             minP := listMin (p :: ps)
             maxP := listMax (p :: ps)
             count := (p :: ps).length
             standard := rndHalfEven (listMean (p :: ps) * (9 / 10))
             bargain := rndHalfEven (listMin (p :: ps) * (11 / 10)) }

/-- The statistics the report prints for quality `q` on input `ps`. -/
def statsFor (q : ℤ) (ps : List Listing) : Option QualityStats :=
  statsOfPrices q (bucketPrices q ps)

/-- The quality keys the grouping loop inserted, in occurrence order with
duplicates. -/
def rawKeys (l : List Listing) : List ℤ := l.filterMap listingKey

/-- `sorted(quality_prices.keys())` (line 84): the distinct keys of the
grouping, in ascending order. -/
def sortedKeys (l : List Listing) : List ℤ :=
  List.insertionSort (· ≤ ·) (rawKeys l).dedup

/-- The descending-by-time order used for recent activity: `a` precedes `b`
when `a`'s time string is at least `b`'s. -/
def timeGe (a b : Listing) : Prop := b.time ≤ a.time

instance : DecidableRel timeGe :=
  fun a b => inferInstanceAs (Decidable (b.time ≤ a.time))

instance : IsTotal Listing timeGe :=
  ⟨fun a b => le_total b.time a.time⟩

instance : IsTrans Listing timeGe :=
  ⟨fun _ _ _ h1 h2 => le_trans h2 h1⟩

/-- `sorted(data['prices'], key=lambda x: x['time'], reverse=True)`
(line 112): a stable descending sort by the time string, returning a new
list.  Python's sort is stable; a stable insertion sort has the same
input/output behaviour. -/
def sortByTimeDesc (l : List Listing) : List Listing :=
  List.insertionSort timeGe l

/-- `recent_items` (line 112): the first five listings of the descending
stable sort. -/
def recentItems (l : List Listing) : List Listing :=
  (sortByTimeDesc l).take 5

/-- `quality_name` for a recent row (line 120):
`get_quality_name(qlt) if qlt is not None else ""`. -/
def recentQualityName (qlt : Option ℤ) : String :=
  match qlt with
  | some q => getQualityName q
  | none => ""

/-- `quality_text` for a recent row (line 121): the name wrapped in
parentheses when the name string is nonempty. -/
def recentQualityText (qlt : Option ℤ) : String :=
  if recentQualityName qlt = "" then "" else
    "(" ++ recentQualityName qlt ++ ")"

/-- The colour of a recent row (line 118):
`quality_colors.get(qlt, Fore.WHITE) if qlt else Fore.WHITE` — note the
truthiness test, under which both `None` and `0` fall back to white. -/
def recentRowColor (qlt : Option ℤ) : String :=
  match qlt with
  | none => "WHITE"
  | some q => if q = 0 then "WHITE" else qualityColors q

/-- One printed recent-activity row (lines 114-125).  The `strftime`
re-rendering of the timestamp is presentation and kept as the raw string. -/
structure RecentRow where
  time : String
  price : ℚ
  color : String
  qualityText : String
  bonusText : String
deriving DecidableEq

/-- Builds the recent-activity row for one listing (lines 114-125). -/
def renderRecentRow (x : Listing) : RecentRow :=
  { time := x.time
    price := x.price
    color := recentRowColor x.qlt
    qualityText := recentQualityText x.qlt
    bonusText := if x.hasBonus then "[Has Bonus]" else "" }

/-- The whole output of the aggregation-and-report pass `analyze_prices`
(lines 52-125): the per-quality blocks in ascending quality order, the two
summary counters, and the recent-activity rows. -/
structure AnalysisResult where
  qualityAnalysis : List QualityStats
  totalItems : ℕ
  itemsWithBonus : ℕ
  recentActivity : List RecentRow
deriving DecidableEq

/-- The pure aggregation: everything `analyze_prices` computes from the
listing sequence `data['prices']`. -/
def analyzeListings (l : List Listing) : AnalysisResult :=
  { qualityAnalysis := (sortedKeys l).filterMap (fun q => statsFor q l)
    totalItems := l.length
    itemsWithBonus := skippedCount l
    recentActivity := (recentItems l).map renderRecentRow }

/-- Embeds the post-HTTP portion of `fetch_auction_data` (lines 33-36):
once `requests.get` and `raise_for_status` have succeeded and
`response.json()` has decoded the body into a document, that document is
returned as-is.  No validation of its shape is performed before `return`. -/
def fetchAuctionDataBody (d : AuctionDoc) : Except RunError AuctionDoc :=
  Except.ok d

/-- The `data['prices']` subscript (lines 53, 59, 106, 112): a Python
`KeyError` when the field is absent. -/
def getPricesField (d : AuctionDoc) : Except RunError (List Listing) :=
  match d.prices with
  | some ps => Except.ok ps
  | none => Except.error RunError.keyFailure

/-- `analyze_prices` on the decoded document: fails with a `KeyError` when
`prices` is missing, otherwise aggregates. -/
def analyzePricesDoc (d : AuctionDoc) : Except RunError AnalysisResult :=
  (getPricesField d).map analyzeListings

/-- The fetch-then-analyze pipeline of `main` (lines 129-130). -/
def runMain (d : AuctionDoc) : Except RunError AnalysisResult :=
  fetchAuctionDataBody d >>= analyzePricesDoc

/-- `analyze_prices` with the document state threaded explicitly: the pass
reads `data['prices']` repeatedly, builds fresh accumulators, and sorts a
copy (`sorted` on line 112 allocates a new list); the document it leaves
behind still holds the same listing sequence. -/
def analyzePricesSt (d : AuctionDoc) :
    Except RunError (AnalysisResult × AuctionDoc) :=
  match d.prices with
  | none => Except.error RunError.keyFailure
  | some ps => Except.ok (analyzeListings ps, { prices := some ps })

/-- Concrete listings used to instantiate the theorems: the worked example
of the specification plus a bonus-carrying and a quality-less listing. -/
def demoListing0 : Listing :=
  { price := 100, time := "2024-01-01T00:00:00Z", qlt := some 0, hasBonus := false }

def demoListing1 : Listing :=
  { price := 200, time := "2024-01-02T00:00:00Z", qlt := some 0, hasBonus := false }

def demoBonus : Listing :=
  { price := 300, time := "2024-01-03T00:00:00Z", qlt := some 2, hasBonus := true }

def demoNoQlt : Listing :=
  { price := 50, time := "2024-01-04T00:00:00Z", qlt := none, hasBonus := false }

/-- The statistics record produced for the specification's worked example
bucket `[100, 200]`. -/
def demoStats : QualityStats :=
  { qlt := 0
    name := getQualityName 0
    avg := listMean [100, 200]
    minP := listMin [100, 200]
    maxP := listMax [100, 200]
    count := 2
    standard := rndHalfEven (listMean [100, 200] * (9 / 10))
    bargain := rndHalfEven (listMin [100, 200] * (11 / 10)) }

theorem bucketPrices_cons (q : ℤ) (x : Listing) (xs : List Listing) :
    bucketPrices q (x :: xs) =
      if listingKey x = some q then x.price :: bucketPrices q xs
      else bucketPrices q xs := rfl

theorem bucketPrices_append (q : ℤ) (l₁ l₂ : List Listing) :
    bucketPrices q (l₁ ++ l₂) = bucketPrices q l₁ ++ bucketPrices q l₂ := by
  induction l₁ with
  | nil => rfl
  | cons x xs ih =>
      by_cases h : listingKey x = some q <;>
        simp [bucketPrices_cons, h, ih]

theorem skippedCount_cons (x : Listing) (xs : List Listing) :
    skippedCount (x :: xs) = (if x.hasBonus then 1 else 0) + skippedCount xs := rfl

theorem skippedCount_append (l₁ l₂ : List Listing) :
    skippedCount (l₁ ++ l₂) = skippedCount l₁ + skippedCount l₂ := by
  induction l₁ with
  | nil => simp [skippedCount]
  | cons x xs ih => simp [skippedCount_cons, ih]; omega

theorem unbucketedCount_cons (x : Listing) (xs : List Listing) :
    unbucketedCount (x :: xs) =
      (if x.hasBonus = false ∧ x.qlt = none then 1 else 0) + unbucketedCount xs := rfl

theorem statsFor_congr {q : ℤ} {l l' : List Listing}
    (h : bucketPrices q l = bucketPrices q l') : statsFor q l = statsFor q l' := by
  unfold statsFor; rw [h]

/-- Claim C2: a listing carrying `bonus_properties` — whether or not it also
has a `qlt` — lands in no quality bucket (hence changes no bucket's
statistics) while still incrementing both `total_items` and
`items_with_bonus`; the bonus test precedes the quality test in the loop. -/
theorem bonus_excluded (x : Listing) (hb : x.hasBonus = true) (l₁ l₂ : List Listing) :
    (∀ q, bucketPrices q (l₁ ++ x :: l₂) = bucketPrices q (l₁ ++ l₂)) ∧
    (∀ q, statsFor q (l₁ ++ x :: l₂) = statsFor q (l₁ ++ l₂)) ∧
    (analyzeListings (l₁ ++ x :: l₂)).totalItems
      = (analyzeListings (l₁ ++ l₂)).totalItems + 1 ∧
    (analyzeListings (l₁ ++ x :: l₂)).itemsWithBonus
      = (analyzeListings (l₁ ++ l₂)).itemsWithBonus + 1 := by
  have hkey : listingKey x = none := by simp [listingKey, hb]
  have hbuckets : ∀ q, bucketPrices q (l₁ ++ x :: l₂) = bucketPrices q (l₁ ++ l₂) := by
    intro q
    rw [bucketPrices_append, bucketPrices_append, bucketPrices_cons, hkey]
    simp
  refine ⟨hbuckets, fun q => statsFor_congr (hbuckets q), ?_, ?_⟩
  · simp [analyzeListings]; omega
  · simp only [analyzeListings]
    rw [skippedCount_append, skippedCount_append, skippedCount_cons, hb]
    simp; omega

/-- Claim C2 witness: instantiated at the concrete bonus-carrying listing
`demoBonus` between the two demo listings. -/
theorem bonus_excluded_witness :
    (∀ q, bucketPrices q [demoListing0, demoBonus, demoListing1]
        = bucketPrices q [demoListing0, demoListing1]) ∧
    (∀ q, statsFor q [demoListing0, demoBonus, demoListing1]
        = statsFor q [demoListing0, demoListing1]) ∧
    (analyzeListings [demoListing0, demoBonus, demoListing1]).totalItems
      = (analyzeListings [demoListing0, demoListing1]).totalItems + 1 ∧
    (analyzeListings [demoListing0, demoBonus, demoListing1]).itemsWithBonus
      = (analyzeListings [demoListing0, demoListing1]).itemsWithBonus + 1 :=
  bonus_excluded demoBonus rfl [demoListing0] [demoListing1]

/-- Claim C3: a listing with `qlt` equal to `0` and no bonus marker has its
price appended to the quality-0 bucket, whose name is "Common"; a listing
with `qlt` absent (and no bonus marker) is appended to no bucket. -/
theorem quality_zero_present (x : Listing) (hb : x.hasBonus = false) :
    (x.qlt = some 0 → ∀ l₁ l₂, bucketPrices 0 (l₁ ++ x :: l₂)
        = bucketPrices 0 l₁ ++ x.price :: bucketPrices 0 l₂) ∧
    (x.qlt = none → ∀ q l₁ l₂, bucketPrices q (l₁ ++ x :: l₂)
        = bucketPrices q (l₁ ++ l₂)) ∧
    getQualityName 0 = "Common" := by
  refine ⟨?_, ?_, rfl⟩
  · intro hq l₁ l₂
    have hkey : listingKey x = some 0 := by simp [listingKey, hb, hq]
    rw [bucketPrices_append, bucketPrices_cons, hkey]
    simp
  · intro hq q l₁ l₂
    have hkey : listingKey x = none := by simp [listingKey, hb, hq]
    rw [bucketPrices_append, bucketPrices_append, bucketPrices_cons, hkey]
    simp

/-- Claim C3 witness: instantiated at the concrete quality-0 listing
`demoListing0` and the quality-less listing `demoNoQlt`. -/
theorem quality_zero_present_witness :
    (demoListing0.qlt = some 0 → ∀ l₁ l₂, bucketPrices 0 (l₁ ++ demoListing0 :: l₂)
        = bucketPrices 0 l₁ ++ demoListing0.price :: bucketPrices 0 l₂) ∧
    (demoListing0.qlt = none → ∀ q l₁ l₂, bucketPrices q (l₁ ++ demoListing0 :: l₂)
        = bucketPrices q (l₁ ++ l₂)) ∧
    getQualityName 0 = "Common" :=
  quality_zero_present demoListing0 rfl

theorem sum_map_add_nat {α : Type} (l : List α) (f g : α → ℕ) :
    (l.map (fun a => f a + g a)).sum = (l.map f).sum + (l.map g).sum := by
  induction l with
  | nil => rfl
  | cons x xs ih => simp [ih]; omega

theorem sum_map_indicator (q0 : ℤ) (keys : List ℤ) (hnd : keys.Nodup) (hm : q0 ∈ keys) :
    (keys.map (fun q => if q0 = q then (1 : ℕ) else 0)).sum = 1 := by
  induction keys with
  | nil => cases hm
  | cons k ks ih =>
      rcases List.mem_cons.mp hm with h | h
      · subst h
        have hnotin : q0 ∉ ks := (List.nodup_cons.mp hnd).1
        have hz : (ks.map (fun q => if q0 = q then (1 : ℕ) else 0)).sum = 0 := by
          apply List.sum_eq_zero
          intro y hy
          rcases List.mem_map.mp hy with ⟨q, hq, rfl⟩
          have hne : q0 ≠ q := fun e => hnotin (e ▸ hq)
          simp [hne]
        simp [hz]
      · have hne : q0 ≠ k := fun e => (List.nodup_cons.mp hnd).1 (e ▸ h)
        simp only [List.map_cons, List.sum_cons, if_neg hne]
        rw [ih (List.nodup_cons.mp hnd).2 h]

theorem sum_bucket_lengths (l : List Listing) (keys : List ℤ) (hnd : keys.Nodup)
    (hcov : ∀ x ∈ l, ∀ q, listingKey x = some q → q ∈ keys) :
    (keys.map (fun q => (bucketPrices q l).length)).sum
      + skippedCount l + unbucketedCount l = l.length := by
  induction l with
  | nil =>
      have h0 : (keys.map (fun q => (bucketPrices q ([] : List Listing)).length)).sum = 0 := by
        apply List.sum_eq_zero
        intro y hy
        rcases List.mem_map.mp hy with ⟨q, _, rfl⟩
        rfl
      simp [h0, skippedCount, unbucketedCount]
  | cons x xs ih =>
      have hcov' : ∀ y ∈ xs, ∀ q, listingKey y = some q → q ∈ keys :=
        fun y hy => hcov y (List.mem_cons_of_mem _ hy)
      have hlen : ∀ q : ℤ, (bucketPrices q (x :: xs)).length
          = (if listingKey x = some q then 1 else 0) + (bucketPrices q xs).length := by
        intro q
        rw [bucketPrices_cons]
        by_cases h : listingKey x = some q <;> simp [h]
        omega
      have hmap : (keys.map (fun q => (bucketPrices q (x :: xs)).length)).sum
          = (keys.map (fun q => if listingKey x = some q then 1 else 0)).sum
            + (keys.map (fun q => (bucketPrices q xs).length)).sum := by
        rw [← sum_map_add_nat]
        simp only [hlen]
      cases hk : listingKey x with
      | some q0 =>
          have hmem : q0 ∈ keys := hcov x (List.mem_cons_self x xs) q0 hk
          have hind : (keys.map (fun q => if listingKey x = some q then (1 : ℕ) else 0)).sum
              = 1 := by
            have he : (keys.map (fun q => if listingKey x = some q then (1 : ℕ) else 0))
                = keys.map (fun q => if q0 = q then (1 : ℕ) else 0) := by
              apply List.map_congr_left
              intro q _
              rw [hk]
              simp [eq_comm]
            rw [he]
            exact sum_map_indicator q0 keys hnd hmem
          have hb : x.hasBonus = false := by
            by_cases hb' : x.hasBonus
            · unfold listingKey at hk; simp [hb'] at hk
            · simpa using hb'
          have hq : x.qlt = some q0 := by
            unfold listingKey at hk
            simpa [hb] using hk
          rw [hmap, hind, skippedCount_cons, unbucketedCount_cons, hb]
          simp only [List.length_cons, hq]
          have := ih hcov'
          simp
          omega
      | none =>
          have hzero : (keys.map (fun q => if listingKey x = some q then (1 : ℕ) else 0)).sum
              = 0 := by
            apply List.sum_eq_zero
            intro y hy
            rcases List.mem_map.mp hy with ⟨q, _, rfl⟩
            simp [hk]
          by_cases hb : x.hasBonus
          · rw [hmap, hzero, skippedCount_cons, unbucketedCount_cons, hb]
            simp only [List.length_cons]
            have := ih hcov'
            simp
            omega
          · have hq : x.qlt = none := by
              unfold listingKey at hk
              simpa [hb] using hk
            rw [hmap, hzero, skippedCount_cons, unbucketedCount_cons, hq]
            simp only [List.length_cons]
            have := ih hcov'
            simp [hb]
            omega

theorem sum_counts_filterMap (l : List Listing) (keys : List ℤ) :
    ((keys.filterMap (fun q => statsFor q l)).map (fun st => st.count)).sum
      = (keys.map (fun q => (bucketPrices q l).length)).sum := by
  induction keys with
  | nil => rfl
  | cons k ks ih =>
      rw [List.filterMap_cons]
      cases hb : bucketPrices k l with
      | nil =>
          have hnone : statsFor k l = none := by
            unfold statsFor; rw [hb]; rfl
          simp [hnone, ih, hb]
      | cons p ps =>
          have hsome : statsFor k l = some
              { qlt := k
                name := getQualityName k
                avg := listMean (p :: ps)
                minP := listMin (p :: ps)
                maxP := listMax (p :: ps)
                count := (p :: ps).length
                standard := rndHalfEven (listMean (p :: ps) * (9 / 10))
                bargain := rndHalfEven (listMin (p :: ps) * (11 / 10)) } := by
            unfold statsFor; rw [hb]; rfl
          simp [hsome, ih, hb]

theorem sortedKeys_nodup (l : List Listing) : (sortedKeys l).Nodup :=
  (List.Perm.nodup_iff (List.perm_insertionSort _ _)).mpr (List.nodup_dedup _)

theorem mem_sortedKeys (l : List Listing) (x : Listing) (hx : x ∈ l) (q : ℤ)
    (hk : listingKey x = some q) : q ∈ sortedKeys l := by
  unfold sortedKeys
  rw [List.mem_insertionSort, List.mem_dedup]
  exact List.mem_filterMap.mpr ⟨x, hx, hk⟩

/-- Claim C1: the bucket counts, the bonus-exclusion counter, and the
listings that are neither bucketed nor bonus-excluded add up exactly to
`total_items`, which is the length of the full input sequence. -/
theorem counts_conserved (l : List Listing) :
    ((analyzeListings l).qualityAnalysis.map (fun st => st.count)).sum
      + (analyzeListings l).itemsWithBonus + unbucketedCount l
      = (analyzeListings l).totalItems ∧
    (analyzeListings l).totalItems = l.length := by
  refine ⟨?_, rfl⟩
  show (((sortedKeys l).filterMap (fun q => statsFor q l)).map (fun st => st.count)).sum
      + skippedCount l + unbucketedCount l = l.length
  rw [sum_counts_filterMap]
  exact sum_bucket_lengths l (sortedKeys l) (sortedKeys_nodup l)
    (fun x hx q hk => mem_sortedKeys l x hx q hk)

theorem listMin_le_sum (p : ℚ) (ps : List ℚ) :
    ((p :: ps).length : ℚ) * listMin (p :: ps) ≤ (p :: ps).sum := by
  induction ps generalizing p with
  | nil => simp [listMin]
  | cons q ps ih =>
      have h1 : listMin (p :: q :: ps) = min p (listMin (q :: ps)) := rfl
      have h2 := ih q
      have hmin1 : min p (listMin (q :: ps)) ≤ p := min_le_left _ _
      have hmin2 : min p (listMin (q :: ps)) ≤ listMin (q :: ps) := min_le_right _ _
      have hlen : (0 : ℚ) ≤ (((q :: ps).length : ℕ) : ℚ) := by positivity
      have h3 : (((q :: ps).length : ℕ) : ℚ) * min p (listMin (q :: ps))
          ≤ (((q :: ps).length : ℕ) : ℚ) * listMin (q :: ps) :=
        mul_le_mul_of_nonneg_left hmin2 hlen
      rw [h1]
      simp only [List.length_cons, List.sum_cons] at h2 h3 ⊢
      push_cast at h2 h3 ⊢
      linarith

theorem sum_le_listMax (p : ℚ) (ps : List ℚ) :
    (p :: ps).sum ≤ ((p :: ps).length : ℚ) * listMax (p :: ps) := by
  induction ps generalizing p with
  | nil => simp [listMax]
  | cons q ps ih =>
      have h1 : listMax (p :: q :: ps) = max p (listMax (q :: ps)) := rfl
      have h2 := ih q
      have hmax1 : p ≤ max p (listMax (q :: ps)) := le_max_left _ _
      have hmax2 : listMax (q :: ps) ≤ max p (listMax (q :: ps)) := le_max_right _ _
      have hlen : (0 : ℚ) ≤ (((q :: ps).length : ℕ) : ℚ) := by positivity
      have h3 : (((q :: ps).length : ℕ) : ℚ) * listMax (q :: ps)
          ≤ (((q :: ps).length : ℕ) : ℚ) * max p (listMax (q :: ps)) :=
        mul_le_mul_of_nonneg_left hmax2 hlen
      rw [h1]
      simp only [List.length_cons, List.sum_cons] at h2 h3 ⊢
      push_cast at h2 h3 ⊢
      linarith

theorem mean_bounds (p : ℚ) (ps : List ℚ) :
    listMin (p :: ps) ≤ listMean (p :: ps) ∧ listMean (p :: ps) ≤ listMax (p :: ps) := by
  have hlen : (0 : ℚ) < (((p :: ps).length : ℕ) : ℚ) := by
    simp only [List.length_cons]
    push_cast
    positivity
  constructor
  · rw [listMean, le_div_iff₀ hlen, mul_comm]
    exact listMin_le_sum p ps
  · rw [listMean, div_le_iff₀ hlen, mul_comm]
    exact sum_le_listMax p ps

/-- Claim C5: the statistics of every nonempty quality bucket satisfy
`minimum_price <= average_price <= maximum_price`, where the average is the
arithmetic mean and min/max the least and greatest prices of the bucket. -/
theorem bucket_stats_ordered (q : ℤ) (l : List Listing) (st : QualityStats)
    (h : statsFor q l = some st) : st.minP ≤ st.avg ∧ st.avg ≤ st.maxP := by
  unfold statsFor at h
  cases hb : bucketPrices q l with
  | nil =>
      rw [hb] at h
      cases h
  | cons p ps =>
      rw [hb] at h
      simp only [statsOfPrices, Option.some.injEq] at h
      subst h
      exact mean_bounds p ps

/-- Claim C5 witness: instantiated at the worked-example bucket `[100, 200]`
of quality 0. -/
theorem bucket_stats_ordered_witness :
    demoStats.minP ≤ demoStats.avg ∧ demoStats.avg ≤ demoStats.maxP :=
  bucket_stats_ordered 0 [demoListing0, demoListing1] demoStats rfl

theorem abs_rndHalfEven_sub_le (x : ℚ) : |((rndHalfEven x : ℤ) : ℚ) - x| ≤ 1 / 2 := by
  have h0 : (⌊x⌋ : ℚ) ≤ x := Int.floor_le x
  have h1 : x < ⌊x⌋ + 1 := Int.lt_floor_add_one x
  unfold rndHalfEven
  by_cases hlt : x - (⌊x⌋ : ℚ) < 1 / 2
  · rw [if_pos hlt, abs_le]
    constructor <;> linarith
  · rw [if_neg hlt]
    push_neg at hlt
    by_cases hgt : (1 : ℚ) / 2 < x - (⌊x⌋ : ℚ)
    · rw [if_pos hgt, abs_le]
      constructor <;> push_cast <;> linarith
    · rw [if_neg hgt]
      push_neg at hgt
      by_cases hev : ⌊x⌋ % 2 = 0
      · rw [if_pos hev, abs_le]
        constructor <;> linarith
      · rw [if_neg hev, abs_le]
        constructor <;> push_cast <;> linarith

/-- Claim C4: for every nonempty bucket, the displayed standard
recommendation is the bucket's average times 0.9 rounded to the nearest
integer, and the bargain recommendation is the bucket's minimum times 1.1
rounded to the nearest integer; rounding to nearest is witnessed by the
half-unit error bound. -/
theorem recommendations_from_avg_min (l : List Listing) (q : ℤ) (p0 : ℚ) (ps : List ℚ)
    (h : bucketPrices q l = p0 :: ps) :
    ∃ st, statsFor q l = some st ∧
      st.avg = listMean (p0 :: ps) ∧
      st.minP = listMin (p0 :: ps) ∧
      st.standard = rndHalfEven (st.avg * (9 / 10)) ∧
      st.bargain = rndHalfEven (st.minP * (11 / 10)) ∧
      |((st.standard : ℤ) : ℚ) - st.avg * (9 / 10)| ≤ 1 / 2 ∧
      |((st.bargain : ℤ) : ℚ) - st.minP * (11 / 10)| ≤ 1 / 2 := by
  refine ⟨{ qlt := q
            name := getQualityName q
            avg := listMean (p0 :: ps)
            minP := listMin (p0 :: ps)
            maxP := listMax (p0 :: ps)
            count := (p0 :: ps).length
            standard := rndHalfEven (listMean (p0 :: ps) * (9 / 10))
            bargain := rndHalfEven (listMin (p0 :: ps) * (11 / 10)) },
          ?_, rfl, rfl, rfl, rfl, abs_rndHalfEven_sub_le _, abs_rndHalfEven_sub_le _⟩
  unfold statsFor
  rw [h]
  rfl

/-- Claim C4 witness: instantiated at the worked-example bucket `[100, 200]`
of quality 0. -/
theorem recommendations_from_avg_min_witness :
    ∃ st, statsFor 0 [demoListing0, demoListing1] = some st ∧
      st.avg = listMean [(100 : ℚ), 200] ∧
      st.minP = listMin [(100 : ℚ), 200] ∧
      st.standard = rndHalfEven (st.avg * (9 / 10)) ∧
      st.bargain = rndHalfEven (st.minP * (11 / 10)) ∧
      |((st.standard : ℤ) : ℚ) - st.avg * (9 / 10)| ≤ 1 / 2 ∧
      |((st.bargain : ℤ) : ℚ) - st.minP * (11 / 10)| ≤ 1 / 2 :=
  recommendations_from_avg_min [demoListing0, demoListing1] 0 100 [200] rfl

theorem filter_time_orderedInsert (t : String) (a : Listing) (l : List Listing) :
    (List.orderedInsert timeGe a l).filter (fun z => z.time = t)
      = if a.time = t then a :: l.filter (fun z => z.time = t)
        else l.filter (fun z => z.time = t) := by
  induction l with
  | nil =>
      by_cases h : a.time = t <;> simp [List.orderedInsert, h]
  | cons b l ih =>
      by_cases hab : timeGe a b
      · simp only [List.orderedInsert, if_pos hab]
        by_cases h : a.time = t <;> simp [List.filter_cons, h]
      · have hba : a.time < b.time := not_le.mp hab
        simp only [List.orderedInsert, if_neg hab]
        by_cases hbt : b.time = t
        · have hat : a.time ≠ t := by
            intro h
            rw [h, ← hbt] at hba
            exact lt_irrefl _ hba
          simp [List.filter_cons, hbt, hat, ih]
        · simp [List.filter_cons, hbt, ih]

theorem filter_time_sort (t : String) (l : List Listing) :
    (sortByTimeDesc l).filter (fun z => z.time = t) = l.filter (fun z => z.time = t) := by
  induction l with
  | nil => rfl
  | cons x xs ih =>
      show (List.orderedInsert timeGe x (List.insertionSort timeGe xs)).filter _ = _
      rw [filter_time_orderedInsert]
      by_cases h : x.time = t <;> simp [List.filter_cons, h] <;> exact ih

/-- Claim C6: the recent-activity list has length `min 5 total_items`, is
ordered by time descending, comes from a permutation of the input, keeps
listings with equal times in input order (the filter at any fixed time is
unchanged in content and order), and is what the report renders. -/
theorem recent_activity_spec (l : List Listing) :
    (recentItems l).length = min 5 l.length ∧
    List.Sorted timeGe (recentItems l) ∧
    List.Perm (sortByTimeDesc l) l ∧
    (∀ t : String, (sortByTimeDesc l).filter (fun z => z.time = t)
        = l.filter (fun z => z.time = t)) ∧
    (analyzeListings l).recentActivity = (recentItems l).map renderRecentRow := by
  refine ⟨?_, ?_, List.perm_insertionSort timeGe l, fun t => filter_time_sort t l, rfl⟩
  · rw [recentItems, List.length_take, sortByTimeDesc, List.length_insertionSort]
  · exact List.Pairwise.sublist (List.take_sublist 5 _) (List.sorted_insertionSort timeGe l)

/-- Claim C7: on the empty listing sequence the aggregation totally
computes: zero totals, no quality blocks, no recent rows, and the
document-level pass succeeds. -/
theorem empty_input_ok :
    analyzeListings [] =
      { qualityAnalysis := [], totalItems := 0, itemsWithBonus := 0, recentActivity := [] } ∧
    analyzePricesDoc { prices := some [] } = Except.ok (analyzeListings []) :=
  ⟨rfl, rfl⟩

/-- Claim C8 counterexample: at the concrete document with no `prices`
field, `fetch_auction_data` returns the document successfully; it never
produces an error for a shape it does not expect, refuting the claim that
the fetcher itself rejects such a document. -/
theorem fetch_accepts_missing_prices_cex :
    fetchAuctionDataBody { prices := none } = Except.ok { prices := none } ∧
    ∀ e : RunError, fetchAuctionDataBody { prices := none } ≠ Except.error e :=
  ⟨rfl, fun _ h => Except.noConfusion h⟩

/-- Claim C8 amended: `fetch_auction_data` returns every decoded document
unchanged, with no shape validation; a document lacking `prices` makes the
run fail only later, when `analyze_prices` subscripts `data['prices']` and
raises a `KeyError`, so the pipeline still terminates with an error. -/
theorem shape_error_surfaces_in_analyze :
    (∀ d : AuctionDoc, fetchAuctionDataBody d = Except.ok d) ∧
    analyzePricesDoc { prices := none } = Except.error RunError.keyFailure ∧
    runMain { prices := none } = Except.error RunError.keyFailure :=
  ⟨fun _ => rfl, rfl, rfl⟩

/-- Claim C9 counterexample: a recent-activity row for a listing with
quality level 0 is rendered WITH the quality label "(Common)", not without
a label: the label decision on line 120 uses `if qlt is not None`, not
truthiness. -/
theorem common_recent_has_label_cex :
    (renderRecentRow demoListing0).qualityText = "(Common)" ∧
    (renderRecentRow demoListing0).qualityText ≠ "" := by
  constructor <;> decide

/-- Claim C9 amended: in the console variant's recent-activity rendering,
truthiness of the quality level (`if qlt`) is used only in the colour
selection on line 118, while the label decision on line 120 uses presence
(`if qlt is not None`); hence a quality-0 recent listing is rendered with
the "(Common)" label, and its colour falls back to white, which coincides
with the table's colour for Common anyway, while quality-less listings get
no label. -/
theorem truthiness_only_in_color (x : Listing) (h : x.qlt = some 0) :
    (renderRecentRow x).qualityText = "(Common)" ∧
    (renderRecentRow x).color = "WHITE" ∧
    qualityColors 0 = "WHITE" ∧
    (∀ y : Listing, y.qlt = none → (renderRecentRow y).qualityText = "") := by
  refine ⟨?_, ?_, rfl, ?_⟩
  · simp [renderRecentRow, recentQualityText, recentQualityName, h, getQualityName]
  · simp [renderRecentRow, recentRowColor, h]
  · intro y hy
    simp [renderRecentRow, recentQualityText, recentQualityName, hy]

/-- Claim C9 amended witness: instantiated at the concrete quality-0
listing `demoListing0`. -/
theorem truthiness_only_in_color_witness :
    (renderRecentRow demoListing0).qualityText = "(Common)" ∧
    (renderRecentRow demoListing0).color = "WHITE" ∧
    qualityColors 0 = "WHITE" ∧
    (∀ y : Listing, y.qlt = none → (renderRecentRow y).qualityText = "") :=
  truthiness_only_in_color demoListing0 rfl

/-- Claim C10: the aggregation-and-report pass leaves the input document
unchanged: whenever the state-threaded `analyze_prices` succeeds, the
document it hands back is the one it was given, and the result is the pure
aggregation of that document's listing sequence. -/
theorem analyze_preserves_doc (d : AuctionDoc) (r : AnalysisResult) (d' : AuctionDoc)
    (h : analyzePricesSt d = Except.ok (r, d')) :
    d' = d ∧ ∀ ps, d.prices = some ps → r = analyzeListings ps := by
  cases d with
  | mk prices =>
      cases prices with
      | none => cases h
      | some ps =>
          simp only [analyzePricesSt, Except.ok.injEq, Prod.mk.injEq] at h
          refine ⟨h.2.symm, fun ps' hps' => ?_⟩
          have : ps' = ps := by
            injection hps' with h'
            exact h'.symm
          rw [this, ← h.1]

/-- Claim C10 witness: instantiated at the concrete one-listing document. -/
theorem analyze_preserves_doc_witness :
    ({ prices := some [demoListing0] } : AuctionDoc) = { prices := some [demoListing0] } ∧
    ∀ ps, ({ prices := some [demoListing0] } : AuctionDoc).prices = some ps →
      analyzeListings [demoListing0] = analyzeListings ps :=
  analyze_preserves_doc { prices := some [demoListing0] }
    (analyzeListings [demoListing0]) { prices := some [demoListing0] } rfl
